import Mathlib

/-!
Verification development for the CoffeeBreak_NPL metadata pipeline.

The Python sources are embedded shallowly: each Python function that the
specification talks about is translated into an executable Lean definition
over `List Char` / `String` / `Int` / `Rat`, and the specified properties
are proved (or refuted) about those definitions.

Modelling conventions:
* Python strings are `String` (lists of unicode scalar values), and most
  character-level work happens on `String.data : List Char`.
* Python `int` values are `Int`; a raised exception (`ValueError`,
  `TypeError`) is an `Except Unit` error value.
* `rapidfuzz.fuzz.ratio` (a normalized indel similarity in `[0, 100]`)
  is modelled exactly over `Rat`; for every comparison appearing in the
  claims the double-precision value and the exact rational agree.
* Python dicts that are used in insertion order are association lists.
-/

namespace CB

/-- Characters stripped by Python `str.strip()` (ASCII whitespace). -/
def isPyWS (c : Char) : Bool :=
  c = ' ' ∨ c = '\t' ∨ c = '\n' ∨ c = '\r' ∨ c = '\x0b' ∨ c = '\x0c'

/-- Python `str.strip()` on a character list. -/
def pyStrip (l : List Char) : List Char :=
  ((l.dropWhile isPyWS).reverse.dropWhile isPyWS).reverse

/-- Python `str.lower()`, restricted to ASCII letters plus the accented
uppercase letters that occur in this data set (Spanish names). -/
def pyLowerChar (c : Char) : Char :=
  if 'A' ≤ c ∧ c ≤ 'Z' then Char.ofNat (c.toNat + 32)
  else if c = 'Á' then 'á'
  else if c = 'É' then 'é'
  else if c = 'Í' then 'í'
  else if c = 'Ó' then 'ó'
  else if c = 'Ú' then 'ú'
  else if c = 'Ñ' then 'ñ'
  else if c = 'Ü' then 'ü'
  else c

def pyLower (l : List Char) : List Char := l.map pyLowerChar

/-- Python `str.upper()` for ASCII letters (regex suffixes are `[A-Za-z]+`). -/
def pyUpperChar (c : Char) : Char :=
  if 'a' ≤ c ∧ c ≤ 'z' then Char.ofNat (c.toNat - 32) else c

def pyUpper (l : List Char) : List Char := l.map pyUpperChar

/-- Python `s.replace(" ", "")`: drop every space character. -/
def removeSpaces (l : List Char) : List Char := l.filter (fun c => c ≠ ' ')

/-- Does `needle` occur at the start of `hay`? -/
def listStarts : List Char → List Char → Bool
  | [], _ => true
  | _ :: _, [] => false
  | a :: as, b :: bs => a = b && listStarts as bs

/-- Python substring test `needle in hay`. -/
def listHasSub (needle : List Char) : List Char → Bool
  | [] => needle.isEmpty
  | l@(_ :: t) => listStarts needle l || listHasSub needle t

/-- Numeric value of a (nonempty) list of decimal digits, Python `int` on a
digit-only string. -/
def digitsToNat (l : List Char) : Nat :=
  l.foldl (fun a c => a * 10 + (c.toNat - 48)) 0

/-- Python format `f"{n:03d}"` for a nonnegative value. -/
def pad3 (n : Nat) : List Char :=
  let s := (toString n).data
  List.replicate (3 - s.length) '0' ++ s

/-- Python `str.zfill(3)`: left-pad with zeros to width 3, keeping any
existing leading zeros. -/
def zfill3 (l : List Char) : List Char :=
  List.replicate (3 - l.length) '0' ++ l

/-! ### normalize_ids.py: `normalize_episode_id`

The regex is `[Ee][Pp]\.?(\d+)([_\-]?[A-Za-z]+)?`, applied with
`re.search` (leftmost match) after removing all spaces.  Group 1 is the
digit run, group 2 the raw suffix including its optional `_`/`-`
separator (`None` when no letters follow the digits).
-/

/-- Try to match `[Ee][Pp]\.?(\d+)([_\-]?[A-Za-z]+)?` at the head of the
list, returning (digit group, optional raw suffix group). -/
def matchEpIdAt : List Char → Option (List Char × Option (List Char))
  | c1 :: c2 :: rest =>
    if (c1 = 'E' ∨ c1 = 'e') ∧ (c2 = 'P' ∨ c2 = 'p') then
      let r1 := match rest with
        | '.' :: r => if (r.headD ' ').isDigit then r else rest
        | _ => rest
      let ds := r1.takeWhile Char.isDigit
      if ds.isEmpty then none
      else
        let r2 := r1.dropWhile Char.isDigit
        let sfx : Option (List Char) := match r2 with
          | '_' :: t => let ls := t.takeWhile Char.isAlpha
                        if ls.isEmpty then none else some ('_' :: ls)
          | '-' :: t => let ls := t.takeWhile Char.isAlpha
                        if ls.isEmpty then none else some ('-' :: ls)
          | t => let ls := t.takeWhile Char.isAlpha
                 if ls.isEmpty then none else some ls
        some (ds, sfx)
    else none
  | _ => none

/-- Leftmost-match search for the episode-id regex (`re.search`). -/
def searchEpId : List Char → Option (List Char × Option (List Char))
  | [] => none
  | l@(_ :: t) =>
    match matchEpIdAt l with
    | some m => some m
    | none => searchEpId t

/-- Drop the single leading `_`/`-` separator of a raw suffix group. -/
def stripSuffixSep : List Char → List Char
  | '_' :: t => t
  | '-' :: t => t
  | t => t

/-- Is the (lower-cased) suffix supplement-like, i.e. does it contain
`supl`, `bonus` or `esp`? -/
def suplLike (sfx : List Char) : Bool :=
  listHasSub "supl".data (pyLower sfx) ||
  listHasSub "bonus".data (pyLower sfx) ||
  listHasSub "esp".data (pyLower sfx)

/-- Standardized suffix as computed by `normalize_episode_id`. -/
def standardizeSuffix (raw : List Char) : List Char :=
  let sfx := stripSuffixSep raw
  if pyUpper sfx = ['A'] ∨ pyUpper sfx = ['B'] then '_' :: pyUpper sfx
  else if suplLike sfx then "_Supl".data
  else sfx

/-- `normalize_episode_id` from
`src/database/source_prepraration/normalize_ids.py`: remove spaces, search
for the episode-id pattern, rebuild `Ep` + zero-padded number + suffix;
on no match return the space-stripped input (no warning is emitted in the
no-match branch). -/
def normalize_episode_id (episode_id : String) : String :=
  let cs := removeSpaces episode_id.data
  match searchEpId cs with
  | some (ds, sfxOpt) =>
    let suffix := match sfxOpt with
      | none => []
      | some raw => standardizeSuffix raw
    ⟨'E' :: 'p' :: pad3 (digitsToNat ds) ++ suffix⟩
  | none => ⟨cs⟩

/-! ### master_refine.py: `parse_duration`

`int()` conversion of a component can raise `ValueError`; the exception is
modelled as `Except Unit`.
-/

/-- Digit run with optional single underscores between digit groups,
after the first digit (Python int-literal tail). -/
def pyIntTail : List Char → Bool
  | [] => true
  | '_' :: c :: t => c.isDigit && pyIntTail t
  | '_' :: [] => false
  | c :: t => c.isDigit && pyIntTail t

/-- Python `int(s)`: optional surrounding whitespace, optional sign,
digits with optional single underscores between them.  `none` models a
raised `ValueError`. -/
def pyInt (l : List Char) : Option Int :=
  let s := pyStrip l
  let (neg, body) : Bool × List Char := match s with
    | '+' :: t => (false, t)
    | '-' :: t => (true, t)
    | t => (false, t)
  match body with
  | c :: t =>
    if c.isDigit && pyIntTail t then
      let n := digitsToNat ((c :: t).filter (fun d => d ≠ '_'))
      some (if neg then -(n : Int) else (n : Int))
    else none
  | [] => none

/-- Python `s.split(sep)` for a single-character separator. -/
def splitOnChar (sep : Char) : List Char → List (List Char)
  | [] => [[]]
  | c :: t =>
    match splitOnChar sep t with
    | [] => [[c]]
    | h :: r => if c = sep then [] :: h :: r else (c :: h) :: r

/-- Colon components of `duration_str.strip().split(":")`. -/
def durationParts (duration_str : String) : List (List Char) :=
  splitOnChar ':' (pyStrip duration_str.data)

/-- `parse_duration` from `src/database/master_refine.py`.  The error case
models the `ValueError` raised by `int()` on a malformed component. -/
def parse_duration (duration_str : String) : Except Unit Int :=
  if duration_str = "" then .ok 0
  else
    match durationParts duration_str with
    | [h, m, s] =>
      match pyInt h, pyInt m, pyInt s with
      | some hv, some mv, some sv => .ok (hv * 3600 + mv * 60 + sv)
      | _, _, _ => .error ()
    | [m, s] =>
      match pyInt m, pyInt s with
      | some mv, some sv => .ok (mv * 60 + sv)
      | _, _ => .error ()
    | _ => .ok 0

/-! ### normalize_contertulios_master_version.py: fuzzy name resolution

`rapidfuzz.fuzz.ratio(s1, s2)` is the normalized indel similarity
`100 * 2 * lcs(s1, s2) / (|s1| + |s2|)` (100 when both strings are
empty), modelled exactly over `Rat`.  The longest-common-subsequence
length is computed by a row-based dynamic program.
-/

/-- One DP step: given the previous LCS row (from the current column on)
and the value just computed in the new row, produce the rest of the new
row for character `a` against the remaining characters `bs`. -/
def lcsRow (a : Char) : List Char → List Nat → Nat → List Nat
  | [], _, _ => []
  | _ :: _, [], _ => []
  | b :: bs, p0 :: ps, cur =>
    let p1 := ps.headD 0
    let v := if a = b then p0 + 1 else max cur p1
    v :: lcsRow a bs ps v

/-- Length of the longest common subsequence of two character lists. -/
def lcsLen (as bs : List Char) : Nat :=
  let init := List.replicate (bs.length + 1) 0
  (as.foldl (fun prev a => 0 :: lcsRow a bs prev 0) init).getLastD 0

/-- `fuzz.ratio` as an exact rational: `200 * lcs / (|s1| + |s2|)`. -/
def fuzzRatio (s1 s2 : List Char) : ℚ :=
  let tot := s1.length + s2.length
  if tot = 0 then 100 else (200 * lcsLen s1 s2 : ℚ) / (tot : ℚ)

/-- Default fuzzy-matching threshold (`DEFAULT_SIMILARITY_THRESHOLD`). -/
def DEFAULT_SIMILARITY_THRESHOLD : ℚ := 70

/-- A name registry: canonical names with their alias lists, in
insertion (iteration) order. -/
abbrev Registry := List (String × List String)

/-- Score of the (already lower-cased) candidate against one registry
target string (`fuzz.ratio(name.lower(), target.lower())`). -/
def scoreOf (cand : List Char) (target : String) : ℚ :=
  fuzzRatio cand (pyLower target.data)

/-- One iteration of the fuzzy loop: update `(best_score, best_match)`
with target `target` belonging to canonical name `norm`. -/
def stepBest (θ : ℚ) (cand : List Char) (norm target : String)
    (st : ℚ × String) : ℚ × String :=
  let score := scoreOf cand target
  if score > st.1 ∧ score ≥ θ then (score, norm) else st

/-- The fuzzy phase of `find_best_normalized_match`: for each registry
entry score the canonical name and then each alias, keeping the best
strictly-improving score that reaches the threshold. -/
def fuzzyPass (cand : List Char) (θ : ℚ) (reg : Registry) : ℚ × String :=
  reg.foldl
    (fun st e => e.2.foldl (fun st2 a => stepBest θ cand e.1 a st2)
      (stepBest θ cand e.1 e.1 st))
    (0, "")

/-- `find_best_normalized_match` from
`src/names_normalization/normalize_contertulios_master_version.py`:
exact canonical match, then exact alias match, then the fuzzy pass; the
empty string models "no match". -/
def find_best_normalized_match (name : String) (reg : Registry)
    (θ : ℚ := DEFAULT_SIMILARITY_THRESHOLD) : String :=
  if reg.any (fun e => e.1 == name) then name
  else
    match reg.find? (fun e => e.2.contains name) with
    | some e => e.1
    | none => (fuzzyPass (pyLower name.data) θ reg).2

/-- All (canonical, target) scoring pairs of a registry in encounter
order: each entry contributes its canonical name and then its aliases. -/
def candidatesOf (reg : Registry) : List (String × String) :=
  reg.flatMap (fun e => (e.1, e.1) :: e.2.map (fun a => (e.1, a)))

/-- Fold of `stepBest` over a flat list of (canonical, target) pairs. -/
def foldPairs (θ : ℚ) (cand : List Char) (l : List (String × String))
    (st : ℚ × String) : ℚ × String :=
  l.foldl (fun st2 p => stepBest θ cand p.1 p.2 st2) st

/-! ### normalize_contertulios_master_version.py: suggestion filtering -/

/-- `has_multiword_name`: does some extracted name contain a space? -/
def has_multiword_name (name_list : List String) : Bool :=
  name_list.any (fun name => name.data.contains ' ')

/-- The two successive filters of `assisted_completion` applied to the
`norm_to_raws` suggestion table: first drop suggestions whose support is
a single raw token without a space, then drop suggestions none of whose
raw tokens contains a space. -/
def filterSuggestions (norm_to_raws : List (String × List String)) :
    List (String × List String) :=
  let fst := norm_to_raws.filter
    (fun p => ! (p.2.length == 1 && ! (p.2.headD "").data.contains ' '))
  fst.filter (fun p => has_multiword_name p.2)

/-! ### consolidate_episode_data.py: grouping and merging

Episode groups live in a Python dict keyed by the 3-digit episode
number; dicts iterate in insertion order, so the dict is modelled as an
association list to which new keys are appended.
-/

/-- An entry of `audiofeed_index.json` as read by
`group_audiofeed_by_episode` (`entry.get(..., '')` defaults). -/
structure AudioEntry where
  episode_id : Option String
  title : String := ""
  date : String := ""
  duration : String := ""
  description : String := ""
  audio_url : String := ""
  link : String := ""
  image_url : String := ""
deriving Repr, DecidableEq

/-- An episode part (`entry_clean` in the source). -/
structure MPart where
  episodeId : String
  partClass : String
  date : String := ""
  duration : String := ""
  rawDescription : String := ""
  audioUrl : String := ""
  ivooxLink : String := ""
  topics : List String := []
  contertulios : List String := []
deriving Repr, DecidableEq

/-- A merged episode record. -/
structure MEpisode where
  number : String
  epClass : String
  title : String := ""
  imageUrl : String := ""
  webLink : String := ""
  refLinks : List String := []
  parts : List MPart := []
deriving Repr, DecidableEq

/-- Match the (case-sensitive) regex `Ep(\d+)(?:_([A-Za-z]+))?` at the
head of the list: digit group and optional letter suffix (without the
underscore). -/
def matchEpGroupAt : List Char → Option (List Char × Option (List Char))
  | 'E' :: 'p' :: rest =>
    let ds := rest.takeWhile Char.isDigit
    if ds.isEmpty then none
    else
      let r2 := rest.dropWhile Char.isDigit
      match r2 with
      | '_' :: t =>
        let ls := t.takeWhile Char.isAlpha
        some (ds, if ls.isEmpty then none else some ls)
      | _ => some (ds, none)
  | _ => none

/-- Leftmost `re.search` for the grouping regex. -/
def searchEpGroup : List Char → Option (List Char × Option (List Char))
  | [] => none
  | l@(_ :: t) =>
    match matchEpGroupAt l with
    | some m => some m
    | none => searchEpGroup t

/-- Association-list update at a key (Python dict item mutation). -/
def updateAssoc (k : String) (f : MEpisode → MEpisode) :
    List (String × MEpisode) → List (String × MEpisode) :=
  List.map (fun e => if e.1 = k then (e.1, f e.2) else e)

/-- Flip a Single episode to Dual when a non-Only part arrives. -/
def flipClass (epPart : String) (g : MEpisode) : MEpisode :=
  if g.epClass = "Single" ∧ epPart ≠ "Only" then { g with epClass := "Dual" }
  else g

/-- Fill title/image if still empty, then append the new part. -/
def addPartUpd (entry : AudioEntry) (newPart : MPart) (g : MEpisode) :
    MEpisode :=
  { g with
    title := if g.title = "" ∧ entry.title ≠ "" then entry.title else g.title,
    imageUrl := if g.imageUrl = "" ∧ entry.image_url ≠ "" then entry.image_url
      else g.imageUrl,
    parts := g.parts ++ [newPart] }

/-- Process one audiofeed entry (one iteration of the grouping loop).
Entries without an id or whose id does not match the regex are skipped
(with a warning in the source). -/
def groupStep (acc : List (String × MEpisode)) (entry : AudioEntry) :
    List (String × MEpisode) :=
  match entry.episode_id with
  | none => acc
  | some epId =>
    match searchEpGroup epId.data with
    | none => acc
    | some (ds, sfx) =>
      let epNumber : String := ⟨zfill3 ds⟩
      let epPart : String := match sfx with
        | some ls => ⟨ls⟩
        | none => "Only"
      let newPart : MPart :=
        { episodeId := epId, partClass := epPart, date := entry.date,
          duration := entry.duration, rawDescription := entry.description,
          audioUrl := entry.audio_url, ivooxLink := entry.link,
          topics := [], contertulios := [] }
      if (acc.find? (fun e => e.1 == epNumber)).isSome then
        updateAssoc epNumber (fun g => addPartUpd entry newPart (flipClass epPart g)) acc
      else
        acc ++ [(epNumber,
          addPartUpd entry newPart
            { number := epNumber,
              epClass := if epPart = "Only" then "Single" else "Dual" })]

/-- `group_audiofeed_by_episode` from
`src/database/consolidate_episode_data.py`. -/
def group_audiofeed_by_episode (audiofeed_data : List AudioEntry) :
    List (String × MEpisode) :=
  audiofeed_data.foldl groupStep []

/-- An entry of `web_parse.json` as read by the merge step. -/
structure WebEntry where
  ep_id : String := ""
  ep_web_link : String := ""
  ep_links : List String := []
deriving Repr, DecidableEq

/-- An entry of `cbinfo_index.json` as read by the merge step. -/
structure CbEntry where
  episode_id : String := ""
  topics : List String := []
  contertulios : List String := []
deriving Repr, DecidableEq

/-- Python `str.lstrip('0')`. -/
def stripLeadingZeros (l : List Char) : List Char :=
  l.dropWhile (fun c => c = '0')

/-- `enrich_episode_with_webdata`: look up the first web entry whose
`ep_id` equals, case-insensitively, `"Ep"` followed by the episode
number with its leading zeros stripped. -/
def enrich_episode_with_webdata (episode_id : String)
    (web_data : List WebEntry) : String × List String :=
  let cleanEpId : List Char := 'E' :: 'p' :: stripLeadingZeros episode_id.data
  match web_data.find? (fun e => pyLower e.ep_id.data == pyLower cleanEpId) with
  | some e => (e.ep_web_link, e.ep_links)
  | none => ("", [])

/-- `enrich_episode_with_cbinfo`: topics and contertulios of the first
cbinfo entry whose id equals the part id. -/
def enrich_episode_with_cbinfo (episode_part_id : String)
    (cbinfo_data : List CbEntry) : List String × List String :=
  match cbinfo_data.find? (fun e => e.episode_id == episode_part_id) with
  | some e => (e.topics, e.contertulios)
  | none => ([], [])

/-- Per-part enrichment with cbinfo data. -/
def enrichPart (cbinfo_data : List CbEntry) (p : MPart) : MPart :=
  let tc := enrich_episode_with_cbinfo p.episodeId cbinfo_data
  { p with topics := tc.1, contertulios := tc.2 }

/-- The per-part loop of `build_episode_structure`: every iteration performs
the episode-level web lookup again (overwriting `web_link`/`ref_links`
with the same value) and enriches the part with cbinfo data.  Returns
the enriched parts, the final `(web_link, ref_links)` state, and the
number of web-lookup calls performed. -/
def buildPartsLoop (ep_num : String) (web_data : List WebEntry)
    (cbinfo_data : List CbEntry) :
    List MPart → String × List String →
      List MPart × (String × List String) × Nat
  | [], st => ([], st, 0)
  | p :: rest, _st =>
    let w := enrich_episode_with_webdata ep_num web_data
    let p2 := enrichPart cbinfo_data p
    let r := buildPartsLoop ep_num web_data cbinfo_data rest w
    (p2 :: r.1, r.2.1, r.2.2 + 1)

/-- `PART_TYPES.index(c)` with the 999 default for unrecognized classes. -/
def partTypeIndex (c : String) : Nat :=
  if c = "A" then 0
  else if c = "B" then 1
  else if c = "Supl" then 2
  else if c = "Only" then 3
  else 999

/-- Sort key comparison used by `episode["Parts"].sort(key=...)`. -/
def partLe (a b : MPart) : Bool :=
  partTypeIndex a.partClass ≤ partTypeIndex b.partClass

/-- Stable insertion of `x` after all list elements `y` with `le y x`. -/
def stableInsert (le : α → α → Bool) (x : α) : List α → List α
  | [] => [x]
  | y :: ys => if le y x then y :: stableInsert le x ys else x :: y :: ys

/-- Stable sort (model of Python `list.sort`, which is stable): insert
the elements left to right, each after any equal-comparing element. -/
def stableSort (le : α → α → Bool) (l : List α) : List α :=
  l.foldl (fun acc x => stableInsert le x acc) []

/-- The per-episode body of `build_episode_structure`: run the part
loop (web and cbinfo enrichment), skip the title/image conflict step
(parts carry no `Title`/`Image_url` key, so the option lists stay
empty and `resolve_conflicts` is never invoked), sort the parts by
part class, and rebuild the parts (the source's `cleaned_parts` copies
exactly the modelled fields, hence is the identity here). -/
def build_episode_one (web_data : List WebEntry) (cbinfo_data : List CbEntry)
    (kv : String × MEpisode) : MEpisode :=
  let r := buildPartsLoop kv.1 web_data cbinfo_data kv.2.parts
    (kv.2.webLink, kv.2.refLinks)
  { kv.2 with
    webLink := r.2.1.1,
    refLinks := r.2.1.2,
    parts := stableSort partLe r.1 }

/-- Sort key of the final `master_data.sort(key=lambda e: int(...))`
(episode numbers produced by grouping are digit strings, on which
`int` agrees with `digitsToNat`). -/
def episodeNumLe (a b : MEpisode) : Bool :=
  digitsToNat a.number.data ≤ digitsToNat b.number.data

/-- `build_episode_structure` from
`src/database/consolidate_episode_data.py`. -/
def build_episode_structure (grouped_parts : List (String × MEpisode))
    (web_data : List WebEntry) (cbinfo_data : List CbEntry) : List MEpisode :=
  stableSort episodeNumLe
    (grouped_parts.map (build_episode_one web_data cbinfo_data))

/-! ### links_retrieval/clean_links.py

The post-load transform of `main`: an optional `--check-domain`
substring pass, then the exclusion-list pass.  Interactive `Confirm.ask`
prompts are modelled as decision parameters (their hard-coded defaults
are `False` for the pattern pass and `True` for the domain pass).
Despite its module docstring, `main` contains no frequency-based
removal step at all.
-/

/-- `urlparse(link).netloc` for common absolute URLs: the component
between the leading `//` (after an optional scheme) and the next
`/`, `?` or `#`; empty when the URL has no `//`. -/
def pyNetloc (url : String) : List Char :=
  let l := url.data
  let afterScheme :=
    let pre := l.takeWhile (fun c => c ≠ ':' ∧ c ≠ '/' ∧ c ≠ '?' ∧ c ≠ '#')
    if pre.length < l.length ∧ l.getD pre.length ' ' = ':' ∧
        pre ≠ [] ∧ pre.all Char.isAlpha then
      l.drop (pre.length + 1)
    else l
  match afterScheme with
  | '/' :: '/' :: rest =>
    rest.takeWhile (fun c => c ≠ '/' ∧ c ≠ '?' ∧ c ≠ '#')
  | _ => []

/-- Web-parse data: episode id with its `ep_links` list, in dict order. -/
abbrev LinksData := List (String × List String)

/-- The `--check-domain` pass: if any link's (lower-cased) netloc
contains the lower-cased pattern, and the user confirms (default no),
drop every such link from every episode. -/
def checkDomainPass (raw_pattern : String) (confirm : Bool)
    (data : LinksData) : LinksData :=
  let pat := pyLower raw_pattern.data
  let matchingLinks := data.flatMap
    (fun e => e.2.filter (fun l => listHasSub pat (pyLower (pyNetloc l))))
  if ¬ matchingLinks.isEmpty ∧ confirm then
    data.map (fun e =>
      (e.1, e.2.filter (fun l => ¬ listHasSub pat (pyLower (pyNetloc l)))))
  else data

/-- The exclusion-list pass: for each excluded domain, after the
(default yes) confirmation, drop every link whose lower-cased netloc
equals the domain. -/
def exclusionPass (exclusions : List String) (confirmDomain : String → Bool)
    (data : LinksData) : LinksData :=
  exclusions.foldl
    (fun d dom =>
      if confirmDomain dom then
        d.map (fun e =>
          (e.1, e.2.filter (fun l => pyLower (pyNetloc l) ≠ dom.data)))
      else d)
    data

/-- The whole data transform of `clean_links.main` between load and
save: optional check-domain pass, then (if the exclusion list is
nonempty) the exclusion pass.  There is no link-frequency counting
anywhere in the function. -/
def cleanLinksMain (check_domain : Option String) (confirmPattern : Bool)
    (exclusions : List String) (confirmDomain : String → Bool)
    (data : LinksData) : LinksData :=
  let d1 := match check_domain with
    | some pat => checkDomainPass pat confirmPattern data
    | none => data
  if exclusions.isEmpty then d1
  else exclusionPass exclusions confirmDomain d1

/-- Number of episodes whose `ep_links` contain the given exact URL. -/
def episodesWithLink (data : LinksData) (url : String) : Nat :=
  (data.filter (fun e => e.2.contains url)).length

/-! ### master_refine.py: dates and durations

`datetime.strptime` against the four accepted formats, `min()` over the
parsed dates (raising `TypeError` on naive/aware mixing), and the two
derived-field passes `add_episode_dates` / `add_total_durations`.
-/

/-- A parsed `datetime`: calendar fields plus an optional UTC offset in
seconds (aware iff the offset is present). -/
structure PyDateTime where
  year : Nat
  month : Nat
  day : Nat
  hour : Nat
  minute : Nat
  second : Nat
  tzOffset : Option Int
deriving Repr, DecidableEq

/-- Parse one or two decimal digits, two-digit reading preferred when
its value is accepted, falling back to a single digit (the alternation
structure of the `_strptime` regexes). -/
def pNum12 (ok2 ok1 : Nat → Bool) : List Char → Option (Nat × List Char)
  | a :: b :: t =>
    if a.isDigit ∧ b.isDigit ∧ ok2 (digitsToNat [a, b]) then
      some (digitsToNat [a, b], t)
    else if a.isDigit ∧ ok1 (digitsToNat [a]) then
      some (digitsToNat [a], b :: t)
    else none
  | [a] => if a.isDigit ∧ ok1 (digitsToNat [a]) then some (digitsToNat [a], []) else none
  | [] => none

/-- Parse exactly four decimal digits (`%Y`). -/
def pYear4 : List Char → Option (Nat × List Char)
  | a :: b :: c :: d :: t =>
    if a.isDigit ∧ b.isDigit ∧ c.isDigit ∧ d.isDigit then
      some (digitsToNat [a, b, c, d], t)
    else none
  | _ => none

/-- Parse a literal character. -/
def pLit (c : Char) : List Char → Option (List Char)
  | x :: t => if x = c then some t else none
  | [] => none

/-- Whitespace in a strptime format matches one or more whitespace
characters. -/
def pSpaces : List Char → Option (List Char)
  | c :: t => if isPyWS c then some (t.dropWhile isPyWS) else none
  | [] => none

/-- Case-insensitive three-letter day abbreviation (`%a`); the value is
parsed but not used. -/
def pDayAbbr (l : List Char) : Option (List Char) :=
  match l with
  | a :: b :: c :: t =>
    if ["mon", "tue", "wed", "thu", "fri", "sat", "sun"].contains
        ⟨pyLower [a, b, c]⟩ then some t
    else none
  | _ => none

/-- Case-insensitive three-letter month abbreviation (`%b`), returning
the month number. -/
def pMonthAbbr (l : List Char) : Option (Nat × List Char) :=
  match l with
  | a :: b :: c :: t =>
    match (["jan", "feb", "mar", "apr", "may", "jun", "jul", "aug", "sep",
        "oct", "nov", "dec"].indexOf (⟨pyLower [a, b, c]⟩ : String)) with
    | 12 => none
    | i => some (i + 1, t)
  | _ => none

/-- Parse `%z`: `Z` or `±HH[:]MM[[:]SS]`, as a UTC offset in seconds. -/
def pTzOffset (l : List Char) : Option (Int × List Char) :=
  match l with
  | 'Z' :: t => some (0, t)
  | sign :: a :: b :: rest =>
    if (sign = '+' ∨ sign = '-') ∧ a.isDigit ∧ b.isDigit then
      let hh := digitsToNat [a, b]
      let rest2 := match rest with
        | ':' :: r => r
        | r => r
      match rest2 with
      | c :: d :: t2 =>
        if c.isDigit ∧ d.isDigit then
          let mm := digitsToNat [c, d]
          let (ss, t3) : Nat × List Char := match t2 with
            | ':' :: e :: f :: t4 =>
              if e.isDigit ∧ f.isDigit then (digitsToNat [e, f], t4) else (0, t2)
            | e :: f :: t4 =>
              if e.isDigit ∧ f.isDigit then (digitsToNat [e, f], t4) else (0, t2)
            | _ => (0, t2)
          let total : Int := (hh : Int) * 3600 + (mm : Int) * 60 + (ss : Int)
          if total < 86400 then
            some (if sign = '-' then -total else total, t3)
          else none
        else none
      | _ => none
    else none
  | _ => none

/-- Is `y` a Gregorian leap year? -/
def isLeap (y : Nat) : Bool := y % 4 = 0 ∧ (y % 100 ≠ 0 ∨ y % 400 = 0)

/-- Days in a month (after the month is known to be 1..12). -/
def daysInMonth (y m : Nat) : Nat :=
  if m = 2 then (if isLeap y then 29 else 28)
  else if [4, 6, 9, 11].contains m then 30
  else 31

/-- Validation performed by the `datetime` constructor on the fields
produced by `_strptime` (year ≥ 1, day within the month, seconds ≤ 59;
the other ranges are already enforced by the format regexes). -/
def validDateTime (dt : PyDateTime) : Bool :=
  1 ≤ dt.year ∧ dt.year ≤ 9999 ∧ dt.day ≤ daysInMonth dt.year dt.month ∧
  dt.second ≤ 59

/-- Build and validate the datetime (a failed validation models the
`ValueError` raised by the constructor, caught by `parse_date`). -/
def mkDateTime (y mo d h mi s : Nat) (tz : Option Int) : Option PyDateTime :=
  let dt : PyDateTime :=
    { year := y, month := mo, day := d, hour := h, minute := mi, second := s,
      tzOffset := tz }
  if validDateTime dt then some dt else none

/-- Range predicates of the `_strptime` regexes for `%d`, `%m`, `%H`
and `%M`/`%S`. -/
def okDay2 (n : Nat) : Bool := 1 ≤ n ∧ n ≤ 31

def okDay1 (n : Nat) : Bool := 1 ≤ n

def okMonth2 (n : Nat) : Bool := 1 ≤ n ∧ n ≤ 12

def okMonth1 (n : Nat) : Bool := 1 ≤ n

def okHour2 (n : Nat) : Bool := n ≤ 23

def okMinSec2 (n : Nat) : Bool := n ≤ 59

def okAny1 (_ : Nat) : Bool := true

/-- Parse `%H:%M:%S`. -/
def pClock (l : List Char) : Option (Nat × Nat × Nat × List Char) := do
  let (h, r1) ← pNum12 okHour2 okAny1 l
  let r2 ← pLit ':' r1
  let (mi, r3) ← pNum12 okMinSec2 okAny1 r2
  let r4 ← pLit ':' r3
  let (s, r5) ← pNum12 okMinSec2 okAny1 r4
  some (h, mi, s, r5)

/-- Format `"%a, %d %b %Y %H:%M:%S %z"` (with `withTz`) or the same
without the trailing offset, e.g. `Thu, 03 Apr 2025 20:41:51 +0200`. -/
def parseRfc822 (withTz : Bool) (l : List Char) : Option PyDateTime := do
  let r1 ← pDayAbbr l
  let r2 ← pLit ',' r1
  let r3 ← pSpaces r2
  let (d, r4) ← pNum12 okDay2 okDay1 r3
  let r5 ← pSpaces r4
  let (mo, r6) ← pMonthAbbr r5
  let r7 ← pSpaces r6
  let (y, r8) ← pYear4 r7
  let r9 ← pSpaces r8
  let (h, mi, s, r10) ← pClock r9
  if withTz then do
    let r11 ← pSpaces r10
    let (off, r12) ← pTzOffset r11
    if r12.isEmpty then mkDateTime y mo d h mi s (some off) else none
  else
    if r10.isEmpty then mkDateTime y mo d h mi s none else none

/-- Format `"%Y-%m-%d %H:%M:%S"` (with `withClock`) or `"%Y-%m-%d"`. -/
def parseIso (withClock : Bool) (l : List Char) : Option PyDateTime := do
  let (y, r1) ← pYear4 l
  let r2 ← pLit '-' r1
  let (mo, r3) ← pNum12 okMonth2 okMonth1 r2
  let r4 ← pLit '-' r3
  let (d, r5) ← pNum12 okDay2 okDay1 r4
  if withClock then do
    let r6 ← pSpaces r5
    let (h, mi, s, r7) ← pClock r6
    if r7.isEmpty then mkDateTime y mo d h mi s none else none
  else
    if r5.isEmpty then mkDateTime y mo d 0 0 0 none else none

/-- `parse_date` from `src/database/master_refine.py`: try the four
formats in order, `None` when all fail or the string is empty. -/
def parse_date (date_str : String) : Option PyDateTime :=
  if date_str = "" then none
  else
    (parseRfc822 true date_str.data).orElse fun _ =>
    (parseRfc822 false date_str.data).orElse fun _ =>
    (parseIso true date_str.data).orElse fun _ =>
    parseIso false date_str.data

/-- Rata-die style day count for valid dates (year ≥ 1), used only to
compare datetimes; strictly monotone in the calendar order. -/
def civilDays (y mo d : Nat) : Nat :=
  let yy := if mo ≤ 2 then y - 1 else y
  let mShift := (mo + 9) % 12
  365 * yy + yy / 4 - yy / 100 + yy / 400 + (153 * mShift + 2) / 5 + d

/-- Naive timeline key in seconds (no offset applied). -/
def naiveKey (dt : PyDateTime) : Int :=
  (civilDays dt.year dt.month dt.day : Int) * 86400 +
    (dt.hour : Int) * 3600 + (dt.minute : Int) * 60 + (dt.second : Int)

/-- Python `a < b` on datetimes: `TypeError` (error) when one side is
aware and the other naive; otherwise compare (aware: in UTC). -/
def pyDtLt (a b : PyDateTime) : Except Unit Bool :=
  match a.tzOffset, b.tzOffset with
  | none, none => .ok (decide (naiveKey a < naiveKey b))
  | some x, some y => .ok (decide (naiveKey a - x < naiveKey b - y))
  | _, _ => .error ()

/-- Python `min` over a nonempty datetime list (first minimum wins). -/
def pyMinDates (d : PyDateTime) : List PyDateTime → Except Unit PyDateTime
  | [] => .ok d
  | x :: rest => do
    let lt ← pyDtLt x d
    pyMinDates (if lt then x else d) rest

/-- `get_date_string`: format as `DD/MM/YYYY` (day and month
zero-padded to two digits). -/
def pad2 (n : Nat) : String :=
  if n < 10 then ⟨'0' :: (toString n).data⟩ else toString n

def get_date_string (dt : PyDateTime) : String :=
  pad2 dt.day ++ "/" ++ pad2 dt.month ++ "/" ++ toString dt.year

/-- An episode record as touched by the refinement passes: its parts
(with their `Date` and `Duration` strings) and the two derived fields. -/
structure RPart where
  date : String := ""
  duration : String := ""
deriving Repr, DecidableEq

structure REpisode where
  number : String := ""
  parts : List RPart := []
  publicationDate : Option String := none
  totalDurationSeconds : Option Int := none
deriving Repr, DecidableEq

/-- The dates of an episode's parts that are nonempty and parse. -/
def episodeDates (e : REpisode) : List PyDateTime :=
  e.parts.filterMap (fun p => if p.date = "" then none else parse_date p.date)

/-- The body of `add_episode_dates` for one episode: compute the
earliest parsed date and write `publication_date` only when it differs
from the stored value; the update flag feeds the count. -/
def addDateOne (e : REpisode) : Except Unit (REpisode × Nat) :=
  match episodeDates e with
  | [] => .ok (e, 0)
  | d :: ds => do
    let m ← pyMinDates d ds
    let s := get_date_string m
    if e.publicationDate ≠ some s then
      .ok ({ e with publicationDate := some s }, 1)
    else .ok (e, 0)

/-- `add_episode_dates` from `src/database/master_refine.py` (the
error case models the `TypeError` that `min` raises when naive and
aware datetimes are mixed). -/
def add_episode_dates : List REpisode → Except Unit (List REpisode × Nat)
  | [] => .ok ([], 0)
  | e :: rest => do
    let r ← addDateOne e
    let rr ← add_episode_dates rest
    .ok (r.1 :: rr.1, r.2 + rr.2)

/-- Total seconds of an episode's parts (a `ValueError` from
`parse_duration` propagates). -/
def episodeTotalSeconds (e : REpisode) : Except Unit Int :=
  e.parts.foldlM
    (fun acc p =>
      if p.duration = "" then .ok acc
      else do
        let v ← parse_duration p.duration
        .ok (acc + v))
    0

/-- The body of `add_total_durations` for one episode: write
`total_duration_seconds` only when the computed total is positive and
differs from the stored value. -/
def addDurationOne (e : REpisode) : Except Unit (REpisode × Nat) := do
  let total ← episodeTotalSeconds e
  if total > 0 then
    if e.totalDurationSeconds ≠ some total then
      .ok ({ e with totalDurationSeconds := some total }, 1)
    else .ok (e, 0)
  else .ok (e, 0)

/-- `add_total_durations` from `src/database/master_refine.py`. -/
def add_total_durations : List REpisode → Except Unit (List REpisode × Nat)
  | [] => .ok ([], 0)
  | e :: rest => do
    let r ← addDurationOne e
    let rr ← add_total_durations rest
    .ok (r.1 :: rr.1, r.2 + rr.2)

/-! ## Theorems -/

/-- C2 (counterexample): the no-match branch of `normalize_episode_id`
does not return the trimmed input unchanged; it returns the input with
every space removed.  `"ga rbage"` is already trimmed and does not match
the episode pattern, yet the function returns `"garbage"`. -/
theorem normalize_episode_id_space_removal_counterexample :
    searchEpId (removeSpaces "ga rbage".data) = none ∧
    normalize_episode_id "ga rbage" = "garbage" ∧
    normalize_episode_id "ga rbage" ≠ "ga rbage" := by
  refine ⟨by decide, by decide, by decide⟩

/-- C2 (amended): the four identifier-normalization examples hold, and
for every input whose space-stripped form does not match the episode-id
pattern the function returns the input with all spaces removed (and
emits no failure signal: the no-match branch is a bare return). -/
theorem normalize_episode_id_examples_and_fallback :
    normalize_episode_id "EP7" = "Ep007" ∧
    normalize_episode_id "Ep 105_a" = "Ep105_A" ∧
    normalize_episode_id "Ep12_bonus" = "Ep012_Supl" ∧
    normalize_episode_id "garbage" = "garbage" ∧
    ∀ id : String, searchEpId (removeSpaces id.data) = none →
      normalize_episode_id id = ⟨removeSpaces id.data⟩ := by
  refine ⟨by decide, by decide, by decide, by decide, ?_⟩
  intro id h
  simp [normalize_episode_id, h]

/-- C2 (witness): the fallback clause applied to `"garbage"`. -/
theorem normalize_episode_id_examples_and_fallback_witness :
    searchEpId (removeSpaces "garbage".data) = none ∧
    normalize_episode_id "garbage" = ⟨removeSpaces "garbage".data⟩ :=
  ⟨by decide,
    normalize_episode_id_examples_and_fallback.2.2.2.2 "garbage" (by decide)⟩

/-- C10: when the matched suffix (separator stripped) is neither `A`/`B`
(case-insensitively) nor supplement-like, `normalize_episode_id` keeps
the suffix letters but drops the `_`/`-` separator, appending them
directly to the padded number. -/
theorem normalize_episode_id_unrecognized_suffix_drops_separator
    (id : String) (ds sfx : List Char)
    (h : searchEpId (removeSpaces id.data) = some (ds, some sfx))
    (hA : pyUpper (stripSuffixSep sfx) ≠ ['A'])
    (hB : pyUpper (stripSuffixSep sfx) ≠ ['B'])
    (hS : suplLike (stripSuffixSep sfx) = false) :
    normalize_episode_id id =
      ⟨'E' :: 'p' :: pad3 (digitsToNat ds) ++ stripSuffixSep sfx⟩ := by
  simp [normalize_episode_id, h, standardizeSuffix, hA, hB, hS]

/-- C10 (witness): `"Ep105_C"` normalizes to `"Ep105C"`, without the
underscore of the canonical `Ep###_<suffix>` shape. -/
theorem normalize_episode_id_unrecognized_suffix_witness :
    searchEpId (removeSpaces "Ep105_C".data) =
      some ("105".data, some "_C".data) ∧
    normalize_episode_id "Ep105_C" = "Ep105C" :=
  ⟨by decide,
    (normalize_episode_id_unrecognized_suffix_drops_separator
      "Ep105_C" "105".data "_C".data (by decide) (by decide) (by decide)
      (by decide)).trans (by decide)⟩

/-- C8 (counterexample): `parse_duration` is not total — on a two-component
string whose components are not integer literals, `int()` raises a
`ValueError` (modelled by the error value) instead of returning 0. -/
theorem parse_duration_raises_counterexample :
    parse_duration "a:b" = .error () ∧ parse_duration "1:xx" = .error () := by
  exact ⟨rfl, rfl⟩

/-- C8 (amended): the three duration examples hold, and every string
whose colon-split has neither two nor three components parses to 0; but
on 2/3-component strings the function can raise (see the
counterexample), so it is not total. -/
theorem parse_duration_examples_and_offshape :
    parse_duration "1:02:03" = .ok 3723 ∧
    parse_duration "45:10" = .ok 2710 ∧
    parse_duration "" = .ok 0 ∧
    ∀ s : String, (durationParts s).length ≠ 2 →
      (durationParts s).length ≠ 3 → parse_duration s = .ok 0 := by
  refine ⟨rfl, rfl, rfl, ?_⟩
  intro s h2 h3
  unfold parse_duration
  split
  · rfl
  · match hl : durationParts s with
    | [] => rfl
    | [a] => rfl
    | [a, b] => exact absurd (by rw [hl]; rfl) h2
    | [a, b, c] => exact absurd (by rw [hl]; rfl) h3
    | a :: b :: c :: d :: t => rfl

/-- C8 (witness): the off-shape clause applied to `"1:2:3:4"`. -/
theorem parse_duration_examples_and_offshape_witness :
    (durationParts "1:2:3:4").length = 4 ∧ parse_duration "1:2:3:4" = .ok 0 :=
  ⟨by decide,
    parse_duration_examples_and_offshape.2.2.2 "1:2:3:4" (by decide) (by decide)⟩

/-- C6 (code_bug evidence): the data transform of `clean_links.main`
performs no frequency-based removal.  With no `--check-domain` argument
and an empty exclusion list it is the identity for every confirmation
policy, so a link occurring in four episodes survives untouched even
though the module documentation (and the specification) promise its
unconditional removal at the default threshold 3. -/
theorem clean_links_no_frequency_removal :
    episodesWithLink
      [("Ep001", ["https://promo.example/x", "https://unique.example/a"]),
       ("Ep002", ["https://promo.example/x"]),
       ("Ep003", ["https://promo.example/x"]),
       ("Ep004", ["https://promo.example/x"])] "https://promo.example/x" = 4 ∧
    (∀ confirmPattern confirmDomain,
      cleanLinksMain none confirmPattern [] confirmDomain
        [("Ep001", ["https://promo.example/x", "https://unique.example/a"]),
         ("Ep002", ["https://promo.example/x"]),
         ("Ep003", ["https://promo.example/x"]),
         ("Ep004", ["https://promo.example/x"])] =
        [("Ep001", ["https://promo.example/x", "https://unique.example/a"]),
         ("Ep002", ["https://promo.example/x"]),
         ("Ep003", ["https://promo.example/x"]),
         ("Ep004", ["https://promo.example/x"])]) := by
  exact ⟨by decide, fun _ _ => rfl⟩

/-- C7 (counterexample): a suggestion supported by two raw tokens, both
without spaces, is discarded by the filtering step, although the claimed
discard condition (exactly one supporting token, spaceless) is false for
it. -/
theorem filterSuggestions_two_tokens_counterexample :
    filterSuggestions [("Héctor Socas", ["Héctor", "Hector"])] = [] ∧
    (["Héctor", "Hector"] : List String).length ≠ 1 ∧
    (["Héctor", "Hector"] : List String).all
      (fun r => ! r.data.contains ' ') = true := by
  refine ⟨by decide, by decide, by decide⟩

/-- C7 (amended): a suggestion survives the filtering step exactly when
at least one of its supporting raw tokens contains a space (the
single-token filter is subsumed by the `has_multiword_name` filter); a
suggestion supported only by the single token `"Héctor"` is discarded. -/
theorem filterSuggestions_iff_multiword :
    (∀ l, filterSuggestions l = l.filter (fun p => has_multiword_name p.2)) ∧
    filterSuggestions [("Héctor Socas", ["Héctor"])] = [] := by
  constructor
  · intro l
    unfold filterSuggestions
    rw [List.filter_filter]
    apply List.filter_congr
    intro p _
    match hp : p.2 with
    | [] => simp [has_multiword_name]
    | [x] => simp [has_multiword_name]
    | x :: y :: t => simp [has_multiword_name]
  · decide

/-! ### C4: the episode-class invariant of the grouping loop -/

/-- Invariant carried by the grouping dict: every episode group is
`Single` exactly when all of its parts (at least one) are `Only`, and
its class is one of the two values `Single` / `Dual`. -/
def groupInv (acc : List (String × MEpisode)) : Prop :=
  ∀ kv ∈ acc,
    (kv.2.epClass = "Single" ↔ ∀ p ∈ kv.2.parts, p.partClass = "Only") ∧
    kv.2.parts ≠ [] ∧
    (kv.2.epClass = "Single" ∨ kv.2.epClass = "Dual")

theorem flipClass_parts (epPart : String) (g : MEpisode) :
    (flipClass epPart g).parts = g.parts := by
  unfold flipClass; split <;> rfl

theorem flipClass_two_valued (epPart : String) (g : MEpisode)
    (h : g.epClass = "Single" ∨ g.epClass = "Dual") :
    (flipClass epPart g).epClass = "Single" ∨
    (flipClass epPart g).epClass = "Dual" := by
  unfold flipClass
  split
  · right; rfl
  · exact h

theorem classPartIff (entry : AudioEntry) (np : MPart) (g : MEpisode)
    (hg : g.epClass = "Single" ↔ ∀ p ∈ g.parts, p.partClass = "Only") :
    ((addPartUpd entry np (flipClass np.partClass g)).epClass = "Single" ↔
      ∀ p ∈ (addPartUpd entry np (flipClass np.partClass g)).parts,
        p.partClass = "Only") := by
  have hparts : (addPartUpd entry np (flipClass np.partClass g)).parts =
      g.parts ++ [np] := by
    show (flipClass np.partClass g).parts ++ [np] = g.parts ++ [np]
    rw [flipClass_parts]
  rw [hparts]
  have hcls : (addPartUpd entry np (flipClass np.partClass g)).epClass =
      (flipClass np.partClass g).epClass := rfl
  rw [hcls]
  unfold flipClass
  by_cases h1 : g.epClass = "Single" ∧ np.partClass ≠ "Only"
  · rw [if_pos h1]
    constructor
    · intro hc; simp at hc
    · intro hall; exact absurd (hall np (by simp)) h1.2
  · rw [if_neg h1]
    push_neg at h1
    constructor
    · intro hc
      intro p hp
      rcases List.mem_append.mp hp with hp | hp
      · exact (hg.mp hc) p hp
      · rcases List.mem_singleton.mp hp with rfl
        exact h1 hc
    · intro hall
      apply hg.mpr
      intro p hp
      exact hall p (List.mem_append.mpr (Or.inl hp))

theorem groupStep_inv (entry : AudioEntry) (acc : List (String × MEpisode))
    (h : groupInv acc) : groupInv (groupStep acc entry) := by
  unfold groupStep
  cases hid : entry.episode_id
  · exact h
  case some epId =>
    dsimp only
    cases hm : searchEpGroup epId.data
    · exact h
    case some m =>
      obtain ⟨ds, sfx⟩ := m
      dsimp only
      split
      next hfind =>
        intro kv hkv
        unfold updateAssoc at hkv
        obtain ⟨kv0, hkv0, hkveq⟩ := List.mem_map.mp hkv
        by_cases hk : kv0.1 = (⟨zfill3 ds⟩ : String)
        · rw [if_pos hk] at hkveq
          subst hkveq
          refine ⟨classPartIff _ _ _ (h kv0 hkv0).1, ?_, ?_⟩
          · show (flipClass _ kv0.2).parts ++ [_] ≠ []
            simp
          · show (flipClass _ kv0.2).epClass = "Single" ∨
              (flipClass _ kv0.2).epClass = "Dual"
            exact flipClass_two_valued _ kv0.2 (h kv0 hkv0).2.2
        · rw [if_neg hk] at hkveq
          subst hkveq
          exact h kv0 hkv0
      next hfind =>
        intro kv hkv
        rcases List.mem_append.mp hkv with hold | hnew
        · exact h kv hold
        · rcases List.mem_singleton.mp hnew with rfl
          refine ⟨?_, ?_, ?_⟩
          · dsimp only [addPartUpd]
            simp only [List.nil_append, List.mem_singleton]
            constructor
            · intro hc p hp
              subst hp
              split at hc
              next hcond => exact hcond
              next hcond => exact absurd hc (by decide)
            · intro hall
              rw [if_pos (hall _ rfl)]
          · dsimp only [addPartUpd]
            simp
          · dsimp only [addPartUpd]
            split
            · left; rfl
            · right; rfl

theorem groupInv_fold (l : List AudioEntry) :
    ∀ acc, groupInv acc → groupInv (l.foldl groupStep acc) := by
  induction l with
  | nil => intro acc h; exact h
  | cons e t ih => intro acc h; exact ih _ (groupStep_inv e acc h)

/-- C4 (counterexample): two audio entries with the same suffix-free id
`Ep050` produce one episode of class `Single` with two `Only` parts, so
`Single` does not imply "exactly one part". -/
theorem episode_class_two_only_parts_counterexample :
    (group_audiofeed_by_episode
      [{ episode_id := some "Ep050" }, { episode_id := some "Ep050" }]).map
      (fun kv => (kv.2.epClass, kv.2.parts.length)) = [("Single", 2)] := by
  decide

/-! ### C5: the web lookup is key-stripped and runs once per part -/

theorem buildPartsLoop_final (num : String) (web : List WebEntry)
    (cb : List CbEntry) :
    ∀ (l : List MPart) (st : String × List String), l ≠ [] →
      (buildPartsLoop num web cb l st).2.1 =
        enrich_episode_with_webdata num web := by
  intro l
  induction l with
  | nil => intro st h; exact absurd rfl h
  | cons p rest ih =>
    intro st _
    show (buildPartsLoop num web cb rest
      (enrich_episode_with_webdata num web)).2.1 = _
    cases rest with
    | nil => rfl
    | cons q t => exact ih _ (by simp)

theorem buildPartsLoop_count (num : String) (web : List WebEntry)
    (cb : List CbEntry) :
    ∀ (l : List MPart) (st : String × List String),
      (buildPartsLoop num web cb l st).2.2 = l.length := by
  intro l
  induction l with
  | nil => intro st; rfl
  | cons p rest ih =>
    intro st
    show (buildPartsLoop num web cb rest
      (enrich_episode_with_webdata num web)).2.2 + 1 = rest.length + 1
    rw [ih]

/-- Shared concrete inputs: two audio entries `Ep050_A` / `Ep050_B`. -/
def audioAB : List AudioEntry :=
  [{ episode_id := some "Ep050_A" }, { episode_id := some "Ep050_B" }]

def partA050 : MPart := { episodeId := "Ep050_A", partClass := "A" }

def partB050 : MPart := { episodeId := "Ep050_B", partClass := "B" }

def epAB050 : MEpisode :=
  { number := "050", epClass := "Dual", parts := [partA050, partB050] }

/-- C5 (counterexample): a web entry whose id is the zero-padded
episode-level id `Ep050` is NOT matched — the code compares against the
id with leading zeros stripped (`ep50`), so the merged episode keeps an
empty `web_link`; moreover the lookup is executed once per part (twice
here), not once per episode. -/
theorem web_lookup_counterexample :
    (build_episode_structure (group_audiofeed_by_episode audioAB)
      [{ ep_id := "Ep050", ep_web_link := "X" }] []).map
      (fun e => (e.number, e.webLink, e.refLinks)) = [("050", "", [])] ∧
    (enrich_episode_with_webdata "050"
      [{ ep_id := "Ep050", ep_web_link := "X" }]).1 = "" ∧
    (buildPartsLoop "050" [{ ep_id := "Ep050", ep_web_link := "X" }] []
      [partA050, partB050] ("", [])).2.2 = 2 := by
  refine ⟨by decide, by decide, by decide⟩

/-- C5 (amended): for every episode with at least one part, `web_link`
and `ref_links` equal the episode-scoped lookup of the first web entry
whose id equals, case-insensitively, `"Ep"` plus the episode number with
leading zeros stripped; the lookup is evaluated once per part (the count
equals the number of parts), redundantly overwriting the same value. -/
theorem web_lookup_episode_scoped_per_part (web : List WebEntry)
    (cb : List CbEntry) (kv : String × MEpisode) (h : kv.2.parts ≠ []) :
    (build_episode_one web cb kv).webLink =
      (enrich_episode_with_webdata kv.1 web).1 ∧
    (build_episode_one web cb kv).refLinks =
      (enrich_episode_with_webdata kv.1 web).2 ∧
    ∀ st, (buildPartsLoop kv.1 web cb kv.2.parts st).2.2 =
      kv.2.parts.length := by
  refine ⟨?_, ?_, fun st => buildPartsLoop_count kv.1 web cb kv.2.parts st⟩
  · show (buildPartsLoop kv.1 web cb kv.2.parts
      (kv.2.webLink, kv.2.refLinks)).2.1.1 = _
    rw [buildPartsLoop_final kv.1 web cb kv.2.parts _ h]
  · show (buildPartsLoop kv.1 web cb kv.2.parts
      (kv.2.webLink, kv.2.refLinks)).2.1.2 = _
    rw [buildPartsLoop_final kv.1 web cb kv.2.parts _ h]

/-- C5 (witness): with a web entry keyed `Ep50` (zeros stripped) the
episode `050` resolves its link to `X`, and the per-part lookup count
for the two-part episode is 2. -/
theorem web_lookup_episode_scoped_per_part_witness :
    (build_episode_one [{ ep_id := "Ep50", ep_web_link := "X" }] []
      ("050", epAB050)).webLink = "X" ∧
    (buildPartsLoop "050" [{ ep_id := "Ep50", ep_web_link := "X" }] []
      epAB050.parts ("", [])).2.2 = 2 :=
  ⟨((web_lookup_episode_scoped_per_part
      [{ ep_id := "Ep50", ep_web_link := "X" }] [] ("050", epAB050)
      (by decide)).1).trans (by decide),
   ((web_lookup_episode_scoped_per_part
      [{ ep_id := "Ep50", ep_web_link := "X" }] [] ("050", epAB050)
      (by decide)).2.2 ("", [])).trans (by decide)⟩

/-! ### Stable sort lemmas (Python `list.sort` with a numeric key) -/

theorem mem_stableInsert (le : α → α → Bool) (x b : α) (l : List α) :
    b ∈ stableInsert le x l ↔ b = x ∨ b ∈ l := by
  induction l with
  | nil => simp [stableInsert]
  | cons y ys ih =>
    unfold stableInsert
    split
    · simp only [List.mem_cons, ih]
      tauto
    · simp [List.mem_cons]

theorem stableInsert_pairwise (key : α → Nat) (x : α) (l : List α)
    (h : l.Pairwise (fun a b => key a ≤ key b)) :
    (stableInsert (fun a b => decide (key a ≤ key b)) x l).Pairwise
      (fun a b => key a ≤ key b) := by
  induction l with
  | nil => simp [stableInsert]
  | cons y ys ih =>
    rw [List.pairwise_cons] at h
    unfold stableInsert
    split
    next hcond =>
      rw [List.pairwise_cons]
      refine ⟨?_, ih h.2⟩
      intro b hb
      rcases (mem_stableInsert _ x b ys).mp hb with rfl | hb2
      · exact of_decide_eq_true hcond
      · exact h.1 b hb2
    next hcond =>
      have hxy : key x ≤ key y :=
        Nat.le_of_lt (Nat.lt_of_not_le (fun hc => hcond (decide_eq_true hc)))
      rw [List.pairwise_cons]
      refine ⟨?_, List.pairwise_cons.mpr h⟩
      intro b hb
      rcases List.mem_cons.mp hb with rfl | hb2
      · exact hxy
      · exact Nat.le_trans hxy (h.1 b hb2)

theorem filter_stableInsert (key : α → Nat) (k : Nat) (x : α) (l : List α)
    (h : l.Pairwise (fun a b => key a ≤ key b)) :
    (stableInsert (fun a b => decide (key a ≤ key b)) x l).filter
      (fun a => key a == k) =
    (if key x = k then l.filter (fun a => key a == k) ++ [x]
     else l.filter (fun a => key a == k)) := by
  induction l with
  | nil =>
    unfold stableInsert
    by_cases hx : key x = k <;> simp [List.filter_cons, hx]
  | cons y ys ih =>
    rw [List.pairwise_cons] at h
    unfold stableInsert
    split
    next hcond =>
      rw [List.filter_cons, List.filter_cons, ih h.2]
      by_cases hx : key x = k <;> by_cases hy : key y = k <;>
        simp [hx, hy]
    next hcond =>
      have hxy : key x < key y :=
        Nat.lt_of_not_le (fun hc => hcond (decide_eq_true hc))
      by_cases hx : key x = k
      · have hnil : (y :: ys).filter (fun a => key a == k) = [] := by
          rw [List.filter_eq_nil_iff]
          intro b hb
          have hyb : key y ≤ key b := by
            rcases List.mem_cons.mp hb with rfl | hb2
            · exact Nat.le_refl _
            · exact h.1 b hb2
          simp only [beq_iff_eq]
          omega
        rw [List.filter_cons, hnil, if_pos hx]
        simp [hx]
      · rw [List.filter_cons, if_neg hx]
        simp [hx]

theorem stableSort_pairwise_aux (key : α → Nat) (l : List α) :
    ∀ acc, acc.Pairwise (fun a b => key a ≤ key b) →
      (l.foldl (fun acc x =>
        stableInsert (fun a b => decide (key a ≤ key b)) x acc) acc).Pairwise
        (fun a b => key a ≤ key b) := by
  induction l with
  | nil => intro acc h; exact h
  | cons x t ih => intro acc h; exact ih _ (stableInsert_pairwise key x acc h)

theorem stableSort_pairwise (key : α → Nat) (l : List α) :
    (stableSort (fun a b => decide (key a ≤ key b)) l).Pairwise
      (fun a b => key a ≤ key b) :=
  stableSort_pairwise_aux key l [] (List.Pairwise.nil)

theorem filter_stableSort_aux (key : α → Nat) (k : Nat) (l : List α) :
    ∀ acc, acc.Pairwise (fun a b => key a ≤ key b) →
      (l.foldl (fun acc x =>
        stableInsert (fun a b => decide (key a ≤ key b)) x acc) acc).filter
        (fun a => key a == k) =
      acc.filter (fun a => key a == k) ++ l.filter (fun a => key a == k) := by
  induction l with
  | nil => intro acc _; simp
  | cons x t ih =>
    intro acc h
    have step := ih _ (stableInsert_pairwise key x acc h)
    rw [List.foldl_cons, step, filter_stableInsert key k x acc h,
      List.filter_cons]
    by_cases hx : key x = k <;> simp [hx]

/-- Filter-stability of the stable sort: for each key value, sorting
preserves the subsequence of elements with that key. -/
theorem filter_stableSort (key : α → Nat) (k : Nat) (l : List α) :
    (stableSort (fun a b => decide (key a ≤ key b)) l).filter
      (fun a => key a == k) = l.filter (fun a => key a == k) := by
  have := filter_stableSort_aux key k l [] (List.Pairwise.nil)
  simpa [stableSort] using this

/-! ### C3: merge grouping and part order -/

/-- C3: two audio entries `Ep050_A` and `Ep050_B` merge into exactly one
episode, number `050`, class `Dual`, with the two parts in order
[A, B]; and, in general, the parts of every merged episode are sorted
by the fixed part-class order (A, B, Supl, Only, with unrecognized
classes mapped to 999 and hence last), and for each part-class key the
sorted parts keep the pre-sort relative order (stability). -/
theorem merge_grouping_and_part_order :
    build_episode_structure (group_audiofeed_by_episode audioAB) [] [] =
      [{ number := "050", epClass := "Dual",
         parts := [partA050, partB050] }] ∧
    (∀ (web : List WebEntry) (cb : List CbEntry) (kv : String × MEpisode),
      ((build_episode_one web cb kv).parts).Pairwise
        (fun a b : MPart =>
          partTypeIndex a.partClass ≤ partTypeIndex b.partClass)) ∧
    (∀ (web : List WebEntry) (cb : List CbEntry) (kv : String × MEpisode)
        (k : Nat),
      ((build_episode_one web cb kv).parts).filter
        (fun p : MPart => partTypeIndex p.partClass == k) =
      ((buildPartsLoop kv.1 web cb kv.2.parts
        (kv.2.webLink, kv.2.refLinks)).1).filter
        (fun p : MPart => partTypeIndex p.partClass == k)) := by
  refine ⟨by decide, ?_, ?_⟩
  · intro web cb kv
    exact stableSort_pairwise (fun p : MPart => partTypeIndex p.partClass) _
  · intro web cb kv k
    exact filter_stableSort (fun p : MPart => partTypeIndex p.partClass) k _

/-! ### C4: the episode class of the merge engine's final episodes -/

theorem mem_stableSort_aux (le : α → α → Bool) (b : α) (l : List α) :
    ∀ acc, (b ∈ l.foldl (fun acc x => stableInsert le x acc) acc) ↔
      b ∈ acc ∨ b ∈ l := by
  induction l with
  | nil => intro acc; simp
  | cons x t ih =>
    intro acc
    rw [List.foldl_cons, ih (stableInsert le x acc),
      mem_stableInsert le x b acc]
    simp only [List.mem_cons]
    tauto

/-- The stable sort is membership-preserving. -/
theorem mem_stableSort (le : α → α → Bool) (b : α) (l : List α) :
    b ∈ stableSort le l ↔ b ∈ l := by
  have h := mem_stableSort_aux le b l []
  simpa [stableSort] using h

/-- The parts produced by the per-part loop are exactly the cbinfo-
enriched input parts, in order. -/
theorem buildPartsLoop_parts (num : String) (web : List WebEntry)
    (cb : List CbEntry) :
    ∀ (l : List MPart) (st : String × List String),
      (buildPartsLoop num web cb l st).1 = l.map (enrichPart cb) := by
  intro l
  induction l with
  | nil => intro st; rfl
  | cons p rest ih =>
    intro st
    show enrichPart cb p ::
      (buildPartsLoop num web cb rest (enrich_episode_with_webdata num web)).1
      = enrichPart cb p :: rest.map (enrichPart cb)
    rw [ih]

theorem enrichPart_partClass (cb : List CbEntry) (p : MPart) :
    (enrichPart cb p).partClass = p.partClass := rfl

/-- C4 (amended): for every episode in the merge engine's final output,
the class is `Single` if and only if every one of its (at least one)
parts has class `Only`; otherwise it is `Dual` — the class takes no
third value (it is seeded from the first part and flips irreversibly to
`Dual` when a non-`Only` part arrives).  The claim's "exactly one part"
fails when several `Only` parts share an episode number. -/
theorem episode_class_single_iff_all_only (audio : List AudioEntry)
    (web : List WebEntry) (cb : List CbEntry) (e : MEpisode)
    (he : e ∈ build_episode_structure (group_audiofeed_by_episode audio)
      web cb) :
    (e.epClass = "Single" ↔ ∀ p ∈ e.parts, p.partClass = "Only") ∧
    e.parts ≠ [] ∧
    (e.epClass = "Single" ∨ e.epClass = "Dual") := by
  unfold build_episode_structure at he
  rw [mem_stableSort] at he
  obtain ⟨kv, hkv, rfl⟩ := List.mem_map.mp he
  have hg := groupInv_fold audio []
    (fun kv h => absurd h (List.not_mem_nil kv)) kv hkv
  have hcls : (build_episode_one web cb kv).epClass = kv.2.epClass := rfl
  have hparts : (build_episode_one web cb kv).parts =
      stableSort partLe (kv.2.parts.map (enrichPart cb)) := by
    show stableSort partLe
      (buildPartsLoop kv.1 web cb kv.2.parts (kv.2.webLink, kv.2.refLinks)).1
      = _
    rw [buildPartsLoop_parts]
  have hiff : (∀ p ∈ (build_episode_one web cb kv).parts,
      p.partClass = "Only") ↔ (∀ p ∈ kv.2.parts, p.partClass = "Only") := by
    rw [hparts]
    constructor
    · intro hall p hp
      have hmem : enrichPart cb p ∈
          stableSort partLe (kv.2.parts.map (enrichPart cb)) :=
        (mem_stableSort _ _ _).mpr (List.mem_map_of_mem _ hp)
      have := hall (enrichPart cb p) hmem
      rwa [enrichPart_partClass] at this
    · intro hall p hp
      rw [mem_stableSort] at hp
      obtain ⟨p0, hp0, rfl⟩ := List.mem_map.mp hp
      rw [enrichPart_partClass]
      exact hall p0 hp0
  refine ⟨?_, ?_, ?_⟩
  · rw [hcls, hiff]
    exact hg.1
  · obtain ⟨p, hp⟩ := List.exists_mem_of_ne_nil _ hg.2.1
    apply List.ne_nil_of_mem (a := enrichPart cb p)
    rw [hparts, mem_stableSort]
    exact List.mem_map_of_mem _ hp
  · rw [hcls]
    exact hg.2.2

/-- C4 (witness): the amended theorem applied to the duplicate-`Only`
input: the merge engine outputs one `Single` episode with two `Only`
parts, its class one of the two permitted values. -/
theorem episode_class_single_iff_all_only_witness :
    (({ number := "050", epClass := "Single",
        parts := [{ episodeId := "Ep050", partClass := "Only" },
                  { episodeId := "Ep050", partClass := "Only" }] } : MEpisode)
      ∈ build_episode_structure
        (group_audiofeed_by_episode
          [{ episode_id := some "Ep050" }, { episode_id := some "Ep050" }])
        [] []) ∧
    ((("Single" : String) = "Single" ↔
      ∀ p ∈ [({ episodeId := "Ep050", partClass := "Only" } : MPart),
             { episodeId := "Ep050", partClass := "Only" }],
        p.partClass = "Only") ∧
     ([({ episodeId := "Ep050", partClass := "Only" } : MPart),
       { episodeId := "Ep050", partClass := "Only" }] ≠ []) ∧
     (("Single" : String) = "Single" ∨ ("Single" : String) = "Dual")) :=
  ⟨by decide,
    episode_class_single_iff_all_only
      [{ episode_id := some "Ep050" }, { episode_id := some "Ep050" }] [] []
      { number := "050", epClass := "Single",
        parts := [{ episodeId := "Ep050", partClass := "Only" },
                  { episodeId := "Ep050", partClass := "Only" }] }
      (by decide)⟩

/-! ### C9: idempotence of the derived-field refiner -/

theorem episodeDates_set_pub (e : REpisode) (x : Option String) :
    episodeDates { e with publicationDate := x } = episodeDates e := rfl

theorem addDateOne_idem (e e₂ : REpisode) (c : Nat)
    (h : addDateOne e = .ok (e₂, c)) : addDateOne e₂ = .ok (e₂, 0) := by
  unfold addDateOne at h ⊢
  cases hd : episodeDates e with
  | nil =>
    simp only [hd, Except.ok.injEq, Prod.mk.injEq] at h
    obtain ⟨rfl, -⟩ := h
    simp only [hd]
  | cons d ds =>
    simp only [hd, bind, Except.bind] at h
    cases hm : pyMinDates d ds with
    | error err => simp only [hm] at h; simp at h
    | ok m =>
      simp only [hm] at h
      split at h
      next hne =>
        simp only [Except.ok.injEq, Prod.mk.injEq] at h
        obtain ⟨rfl, -⟩ := h
        rw [episodeDates_set_pub]
        simp only [hd, bind, Except.bind, hm]
        rw [if_neg (by simp)]
      next hne =>
        simp only [Except.ok.injEq, Prod.mk.injEq] at h
        obtain ⟨rfl, -⟩ := h
        simp only [hd, bind, Except.bind, hm]
        rw [if_neg hne]

theorem episodeTotalSeconds_set_total (e : REpisode) (x : Option Int) :
    episodeTotalSeconds { e with totalDurationSeconds := x } =
      episodeTotalSeconds e := rfl

theorem addDurationOne_idem (e e₂ : REpisode) (c : Nat)
    (h : addDurationOne e = .ok (e₂, c)) : addDurationOne e₂ = .ok (e₂, 0) := by
  unfold addDurationOne at h ⊢
  simp only [bind, Except.bind] at h ⊢
  cases ht : episodeTotalSeconds e with
  | error err => simp only [ht] at h; simp at h
  | ok tot =>
    simp only [ht] at h
    split at h
    case isTrue hpos =>
      split at h
      next hne =>
        simp only [Except.ok.injEq, Prod.mk.injEq] at h
        obtain ⟨rfl, -⟩ := h
        rw [episodeTotalSeconds_set_total]
        simp only [ht]
        rw [if_pos hpos, if_neg (by simp)]
      next hne =>
        simp only [Except.ok.injEq, Prod.mk.injEq] at h
        obtain ⟨rfl, -⟩ := h
        simp only [ht]
        rw [if_pos hpos, if_neg hne]
    case isFalse hpos =>
      simp only [Except.ok.injEq, Prod.mk.injEq] at h
      obtain ⟨rfl, -⟩ := h
      simp only [ht]
      rw [if_neg hpos]

theorem add_episode_dates_idem (data : List REpisode) :
    ∀ (out : List REpisode) (n : Nat),
      add_episode_dates data = .ok (out, n) →
      add_episode_dates out = .ok (out, 0) := by
  induction data with
  | nil =>
    intro out n h
    unfold add_episode_dates at h
    simp only [Except.ok.injEq, Prod.mk.injEq] at h
    obtain ⟨rfl, -⟩ := h
    rfl
  | cons e rest ih =>
    intro out n h
    unfold add_episode_dates at h
    simp only [bind, Except.bind] at h
    cases ha : addDateOne e with
    | error err => simp only [ha] at h; simp at h
    | ok r =>
      simp only [ha] at h
      cases hrest : add_episode_dates rest with
      | error err => simp only [hrest] at h; simp at h
      | ok rr =>
        simp only [hrest, Except.ok.injEq, Prod.mk.injEq] at h
        obtain ⟨rfl, -⟩ := h
        show add_episode_dates (r.1 :: rr.1) = _
        unfold add_episode_dates
        simp only [bind, Except.bind]
        rw [addDateOne_idem e r.1 r.2 (by rw [ha]),
          ih rr.1 rr.2 (by rw [hrest])]
        rfl

theorem add_total_durations_idem (data : List REpisode) :
    ∀ (out : List REpisode) (n : Nat),
      add_total_durations data = .ok (out, n) →
      add_total_durations out = .ok (out, 0) := by
  induction data with
  | nil =>
    intro out n h
    unfold add_total_durations at h
    simp only [Except.ok.injEq, Prod.mk.injEq] at h
    obtain ⟨rfl, -⟩ := h
    rfl
  | cons e rest ih =>
    intro out n h
    unfold add_total_durations at h
    simp only [bind, Except.bind] at h
    cases ha : addDurationOne e with
    | error err => simp only [ha] at h; simp at h
    | ok r =>
      simp only [ha] at h
      cases hrest : add_total_durations rest with
      | error err => simp only [hrest] at h; simp at h
      | ok rr =>
        simp only [hrest, Except.ok.injEq, Prod.mk.injEq] at h
        obtain ⟨rfl, -⟩ := h
        show add_total_durations (r.1 :: rr.1) = _
        unfold add_total_durations
        simp only [bind, Except.bind]
        rw [addDurationOne_idem e r.1 r.2 (by rw [ha]),
          ih rr.1 rr.2 (by rw [hrest])]
        rfl

/-- C9: the derived-field refiner is idempotent.  Whenever a first
application of `add_episode_dates` (resp. `add_total_durations`)
succeeds, applying it again to its own output returns the same data
with an update count of zero — the derived field is only written when
the freshly computed value differs from the stored one. -/
theorem refiner_idempotent :
    (∀ (data out : List REpisode) (n : Nat),
      add_episode_dates data = .ok (out, n) →
      add_episode_dates out = .ok (out, 0)) ∧
    (∀ (data out : List REpisode) (n : Nat),
      add_total_durations data = .ok (out, n) →
      add_total_durations out = .ok (out, 0)) :=
  ⟨fun data => add_episode_dates_idem data,
   fun data => add_total_durations_idem data⟩

/-- C9 (witness): a concrete one-episode list where the first pass
writes the earliest date `02/04/2025` (resp. total duration 6433 s)
with one update, and the second pass reports zero updates. -/
theorem refiner_idempotent_witness :
    add_episode_dates
      [{ number := "001",
         parts := [{ date := "2025-04-03 10:00:00", duration := "1:02:03" },
                   { date := "2025-04-02", duration := "45:10" }] }] =
      .ok ([{ number := "001",
              parts := [{ date := "2025-04-03 10:00:00",
                          duration := "1:02:03" },
                        { date := "2025-04-02", duration := "45:10" }],
              publicationDate := some "02/04/2025" }], 1) ∧
    add_episode_dates
      [{ number := "001",
         parts := [{ date := "2025-04-03 10:00:00", duration := "1:02:03" },
                   { date := "2025-04-02", duration := "45:10" }],
         publicationDate := some "02/04/2025" }] =
      .ok ([{ number := "001",
              parts := [{ date := "2025-04-03 10:00:00",
                          duration := "1:02:03" },
                        { date := "2025-04-02", duration := "45:10" }],
              publicationDate := some "02/04/2025" }], 0) ∧
    add_total_durations
      [{ number := "001",
         parts := [{ duration := "1:02:03" }, { duration := "45:10" }],
         totalDurationSeconds := some 6433 }] =
      .ok ([{ number := "001",
              parts := [{ duration := "1:02:03" }, { duration := "45:10" }],
              totalDurationSeconds := some 6433 }], 0) :=
  ⟨by rfl,
   refiner_idempotent.1
     [{ number := "001",
        parts := [{ date := "2025-04-03 10:00:00", duration := "1:02:03" },
                  { date := "2025-04-02", duration := "45:10" }] }]
     [{ number := "001",
        parts := [{ date := "2025-04-03 10:00:00", duration := "1:02:03" },
                  { date := "2025-04-02", duration := "45:10" }],
        publicationDate := some "02/04/2025" }] 1 (by rfl),
   refiner_idempotent.2
     [{ number := "001",
        parts := [{ duration := "1:02:03" }, { duration := "45:10" }] }]
     [{ number := "001",
        parts := [{ duration := "1:02:03" }, { duration := "45:10" }],
        totalDurationSeconds := some 6433 }] 1 (by rfl)⟩

/-! ### C1: characterization of the fuzzy best-match fold -/

/-- The best-tracking fold over a flat candidate list computes either no
match (no score reaches the threshold, state untouched) or the first
candidate achieving the maximal score among those at or above the
threshold. -/
theorem foldPairs_char (θ : ℚ) (cand : List Char)
    (l : List (String × String)) :
    ∀ (b : ℚ) (m : String),
      (foldPairs θ cand l (b, m) = (b, m) ∧
        ∀ p ∈ l, θ ≤ scoreOf cand p.2 → scoreOf cand p.2 ≤ b) ∨
      (∃ l₁ p l₂, l = l₁ ++ p :: l₂ ∧
        foldPairs θ cand l (b, m) = (scoreOf cand p.2, p.1) ∧
        θ ≤ scoreOf cand p.2 ∧ b < scoreOf cand p.2 ∧
        (∀ q ∈ l₁, scoreOf cand q.2 < scoreOf cand p.2) ∧
        (∀ q ∈ l₂, θ ≤ scoreOf cand q.2 →
          scoreOf cand q.2 ≤ scoreOf cand p.2)) := by
  induction l with
  | nil =>
    intro b m
    left
    exact ⟨rfl, by simp⟩
  | cons p l ih =>
    intro b m
    have hstep : foldPairs θ cand (p :: l) (b, m) =
        foldPairs θ cand l (stepBest θ cand p.1 p.2 (b, m)) := rfl
    by_cases hc : scoreOf cand p.2 > b ∧ scoreOf cand p.2 ≥ θ
    · have hs : stepBest θ cand p.1 p.2 (b, m) = (scoreOf cand p.2, p.1) := by
        unfold stepBest
        rw [if_pos hc]
      rcases ih (scoreOf cand p.2) p.1 with ⟨heq, hbound⟩ |
        ⟨l₁, q, l₂, hl, heq, hθq, hbq, hl₁, hl₂⟩
      · right
        refine ⟨[], p, l, rfl, ?_, hc.2, hc.1, by simp, ?_⟩
        · rw [hstep, hs, heq]
        · intro q hq hθ2
          exact hbound q hq hθ2
      · right
        refine ⟨p :: l₁, q, l₂, by rw [hl]; simp, ?_, hθq,
          lt_trans hc.1 hbq, ?_, hl₂⟩
        · rw [hstep, hs, heq]
        · intro q2 hq2
          rcases List.mem_cons.mp hq2 with rfl | hq3
          · exact hbq
          · exact hl₁ q2 hq3
    · have hs : stepBest θ cand p.1 p.2 (b, m) = (b, m) := by
        unfold stepBest
        rw [if_neg hc]
      rcases ih b m with ⟨heq, hbound⟩ |
        ⟨l₁, q, l₂, hl, heq, hθq, hbq, hl₁, hl₂⟩
      · left
        refine ⟨by rw [hstep, hs, heq], ?_⟩
        intro q hq hθ2
        rcases List.mem_cons.mp hq with rfl | hq2
        · rcases not_and_or.mp hc with h1 | h1
          · exact le_of_not_lt h1
          · exact absurd hθ2 h1
        · exact hbound q hq2 hθ2
      · right
        refine ⟨p :: l₁, q, l₂, by rw [hl]; simp, by rw [hstep, hs, heq],
          hθq, hbq, ?_, hl₂⟩
        intro q2 hq2
        rcases List.mem_cons.mp hq2 with rfl | hq3
        · rcases not_and_or.mp hc with h1 | h1
          · exact lt_of_le_of_lt (le_of_not_lt h1) hbq
          · exact lt_of_lt_of_le (lt_of_not_le h1) hθq
        · exact hl₁ q2 hq3

/-- The nested per-entry fuzzy fold equals the flat fold over the
(canonical, target) candidate list. -/
theorem fuzzyPass_eq_foldPairs (cand : List Char) (θ : ℚ) (reg : Registry) :
    fuzzyPass cand θ reg = foldPairs θ cand (candidatesOf reg) (0, "") := by
  suffices h : ∀ (r : Registry) (st : ℚ × String),
      r.foldl (fun st e => e.2.foldl (fun st2 a => stepBest θ cand e.1 a st2)
        (stepBest θ cand e.1 e.1 st)) st =
      foldPairs θ cand (candidatesOf r) st from h reg (0, "")
  intro r
  induction r with
  | nil => intro st; rfl
  | cons e rest ih =>
    intro st
    rw [List.foldl_cons, ih]
    have hcand : candidatesOf (e :: rest) =
        ((e.1, e.1) :: e.2.map (fun a => (e.1, a))) ++ candidatesOf rest := by
      simp [candidatesOf]
    rw [hcand]
    unfold foldPairs
    rw [List.foldl_append, List.foldl_cons, List.foldl_map]

/-- Score of the lower-cased mismatch `hector socas` against the
canonical `Héctor Socas`: lcs 11 of 12+12 characters. -/
theorem hectorScoreCanonical :
    scoreOf (pyLower "Hector Socas".data) "Héctor Socas" = 275 / 3 := by
  simp only [scoreOf, fuzzRatio]
  rw [show pyLower "Héctor Socas".data = "héctor socas".data from by decide]
  rw [show lcsLen (pyLower "Hector Socas".data) "héctor socas".data = 11
    from by decide]
  rw [show (pyLower "Hector Socas".data).length = 12 from by decide]
  rw [show ("héctor socas".data).length = 12 from by decide]
  norm_num

/-- Score of `hector socas` against the alias `H. Socas`: lcs 7 of
12+8 characters, i.e. exactly the default threshold 70. -/
theorem hectorScoreAlias :
    scoreOf (pyLower "Hector Socas".data) "H. Socas" = 70 := by
  simp only [scoreOf, fuzzRatio]
  rw [show pyLower "H. Socas".data = "h. socas".data from by decide]
  rw [show lcsLen (pyLower "Hector Socas".data) "h. socas".data = 7
    from by decide]
  rw [show (pyLower "Hector Socas".data).length = 12 from by decide]
  rw [show ("h. socas".data).length = 8 from by decide]
  norm_num

theorem pedroScoreCanonical :
    scoreOf (pyLower "Pedro".data) "Héctor Socas" = 400 / 17 := by
  simp only [scoreOf, fuzzRatio]
  rw [show pyLower "Héctor Socas".data = "héctor socas".data from by decide]
  rw [show lcsLen (pyLower "Pedro".data) "héctor socas".data = 2
    from by decide]
  rw [show (pyLower "Pedro".data).length = 5 from by decide]
  rw [show ("héctor socas".data).length = 12 from by decide]
  norm_num

theorem pedroScoreAlias :
    scoreOf (pyLower "Pedro".data) "H. Socas" = 200 / 13 := by
  simp only [scoreOf, fuzzRatio]
  rw [show pyLower "H. Socas".data = "h. socas".data from by decide]
  rw [show lcsLen (pyLower "Pedro".data) "h. socas".data = 1
    from by decide]
  rw [show (pyLower "Pedro".data).length = 5 from by decide]
  rw [show ("h. socas".data).length = 8 from by decide]
  norm_num

theorem hectorResolves :
    find_best_normalized_match "Hector Socas"
      [("Héctor Socas", ["H. Socas"])] 70 = "Héctor Socas" := by
  have hred : find_best_normalized_match "Hector Socas"
      [("Héctor Socas", ["H. Socas"])] 70 =
      (fuzzyPass (pyLower "Hector Socas".data) 70
        [("Héctor Socas", ["H. Socas"])]).2 := rfl
  have hfold : fuzzyPass (pyLower "Hector Socas".data) 70
      [("Héctor Socas", ["H. Socas"])] =
      stepBest 70 (pyLower "Hector Socas".data) "Héctor Socas" "H. Socas"
        (stepBest 70 (pyLower "Hector Socas".data) "Héctor Socas"
          "Héctor Socas" (0, "")) := rfl
  have hstep1 : stepBest 70 (pyLower "Hector Socas".data) "Héctor Socas"
      "Héctor Socas" (0, "") = (275 / 3, "Héctor Socas") := by
    show (if scoreOf (pyLower "Hector Socas".data) "Héctor Socas" > 0 ∧
        scoreOf (pyLower "Hector Socas".data) "Héctor Socas" ≥ 70 then
        (scoreOf (pyLower "Hector Socas".data) "Héctor Socas",
          "Héctor Socas")
      else ((0 : ℚ), "")) = (275 / 3, "Héctor Socas")
    rw [hectorScoreCanonical, if_pos (by norm_num)]
  have hstep2 : stepBest 70 (pyLower "Hector Socas".data) "Héctor Socas"
      "H. Socas" (275 / 3, "Héctor Socas") = (275 / 3, "Héctor Socas") := by
    show (if scoreOf (pyLower "Hector Socas".data) "H. Socas" > 275 / 3 ∧
        scoreOf (pyLower "Hector Socas".data) "H. Socas" ≥ 70 then
        (scoreOf (pyLower "Hector Socas".data) "H. Socas", "Héctor Socas")
      else ((275 / 3 : ℚ), "Héctor Socas")) = (275 / 3, "Héctor Socas")
    rw [hectorScoreAlias, if_neg (by norm_num)]
  rw [hred, hfold, hstep1, hstep2]

theorem pedroResolvesNone :
    find_best_normalized_match "Pedro"
      [("Héctor Socas", ["H. Socas"])] 70 = "" := by
  have hred : find_best_normalized_match "Pedro"
      [("Héctor Socas", ["H. Socas"])] 70 =
      (fuzzyPass (pyLower "Pedro".data) 70
        [("Héctor Socas", ["H. Socas"])]).2 := rfl
  have hfold : fuzzyPass (pyLower "Pedro".data) 70
      [("Héctor Socas", ["H. Socas"])] =
      stepBest 70 (pyLower "Pedro".data) "Héctor Socas" "H. Socas"
        (stepBest 70 (pyLower "Pedro".data) "Héctor Socas"
          "Héctor Socas" (0, "")) := rfl
  have hstep1 : stepBest 70 (pyLower "Pedro".data) "Héctor Socas"
      "Héctor Socas" (0, "") = (0, "") := by
    show (if scoreOf (pyLower "Pedro".data) "Héctor Socas" > 0 ∧
        scoreOf (pyLower "Pedro".data) "Héctor Socas" ≥ 70 then
        (scoreOf (pyLower "Pedro".data) "Héctor Socas", "Héctor Socas")
      else ((0 : ℚ), "")) = ((0 : ℚ), "")
    rw [pedroScoreCanonical, if_neg (by norm_num)]
  have hstep2 : stepBest 70 (pyLower "Pedro".data) "Héctor Socas"
      "H. Socas" (0, "") = (0, "") := by
    show (if scoreOf (pyLower "Pedro".data) "H. Socas" > 0 ∧
        scoreOf (pyLower "Pedro".data) "H. Socas" ≥ 70 then
        (scoreOf (pyLower "Pedro".data) "H. Socas", "Héctor Socas")
      else ((0 : ℚ), "")) = ((0 : ℚ), "")
    rw [pedroScoreAlias, if_neg (by norm_num)]
  rw [hred, hfold, hstep1, hstep2]

/-- C1: `find_best_normalized_match` resolves in order: exact canonical
match; exact alias match (first entry whose aliases contain the name in
registry order); otherwise the fuzzy pass returns the canonical name of
the first candidate (registry iteration order, canonical before its
aliases) whose case-insensitive similarity score is at or above the
threshold and maximal among all candidates — ties broken in favor of
the first-encountered — or no match (the empty string) when no score
reaches the threshold.  The default threshold is 70, and the two
specified examples resolve as stated. -/
theorem find_best_normalized_match_resolution :
    (∀ (name : String) (reg : Registry) (θ : ℚ),
      reg.any (fun e => e.1 == name) = true →
      find_best_normalized_match name reg θ = name) ∧
    (∀ (name : String) (reg : Registry) (θ : ℚ) (e : String × List String),
      reg.any (fun e => e.1 == name) = false →
      reg.find? (fun e => e.2.contains name) = some e →
      find_best_normalized_match name reg θ = e.1) ∧
    (∀ (name : String) (reg : Registry) (θ : ℚ), 0 < θ →
      reg.any (fun e => e.1 == name) = false →
      reg.find? (fun e => e.2.contains name) = none →
      ((find_best_normalized_match name reg θ = "" ∧
        ∀ p ∈ candidatesOf reg, scoreOf (pyLower name.data) p.2 < θ) ∨
       (∃ l₁ p l₂, candidatesOf reg = l₁ ++ p :: l₂ ∧
        find_best_normalized_match name reg θ = p.1 ∧
        θ ≤ scoreOf (pyLower name.data) p.2 ∧
        (∀ q ∈ candidatesOf reg,
          scoreOf (pyLower name.data) q.2 ≤
            scoreOf (pyLower name.data) p.2) ∧
        (∀ q ∈ l₁, scoreOf (pyLower name.data) q.2 <
          scoreOf (pyLower name.data) p.2)))) ∧
    find_best_normalized_match "Hector Socas"
      [("Héctor Socas", ["H. Socas"])] 70 = "Héctor Socas" ∧
    find_best_normalized_match "Pedro"
      [("Héctor Socas", ["H. Socas"])] 70 = "" ∧
    DEFAULT_SIMILARITY_THRESHOLD = 70 := by
  refine ⟨?_, ?_, ?_, hectorResolves, pedroResolvesNone, rfl⟩
  · intro name reg θ h
    unfold find_best_normalized_match
    rw [if_pos h]
  · intro name reg θ e hany hfind
    unfold find_best_normalized_match
    rw [if_neg (by rw [hany]; exact Bool.false_ne_true), hfind]
  · intro name reg θ hθ hany hfind
    have hred : find_best_normalized_match name reg θ =
        (fuzzyPass (pyLower name.data) θ reg).2 := by
      unfold find_best_normalized_match
      rw [if_neg (by rw [hany]; exact Bool.false_ne_true), hfind]
    rw [hred, fuzzyPass_eq_foldPairs]
    rcases foldPairs_char θ (pyLower name.data) (candidatesOf reg) 0 ""
      with ⟨heq, hbound⟩ | ⟨l₁, p, l₂, hl, heq, hθp, hbp, hl₁, hl₂⟩
    · left
      refine ⟨by rw [heq], ?_⟩
      intro p hp
      by_cases hge : θ ≤ scoreOf (pyLower name.data) p.2
      · exact lt_of_le_of_lt (hbound p hp hge) hθ
      · exact lt_of_not_le hge
    · right
      refine ⟨l₁, p, l₂, hl, by rw [heq], hθp, ?_, hl₁⟩
      intro q hq
      rw [hl] at hq
      rcases List.mem_append.mp hq with hq1 | hq2
      · exact le_of_lt (hl₁ q hq1)
      · rcases List.mem_cons.mp hq2 with rfl | hq3
        · exact le_refl _
        · by_cases hge : θ ≤ scoreOf (pyLower name.data) q.2
          · exact hl₂ q hq3 hge
          · exact le_of_lt (lt_of_lt_of_le (lt_of_not_le hge) hθp)

/-- C1 (witness): the exact-canonical and exact-alias clauses applied
to concrete registries. -/
theorem find_best_normalized_match_resolution_witness :
    find_best_normalized_match "Pedro" [("Pedro", ["P."])] 70 = "Pedro" ∧
    find_best_normalized_match "H. Socas"
      [("Héctor Socas", ["H. Socas"])] 70 = "Héctor Socas" :=
  ⟨find_best_normalized_match_resolution.1 "Pedro" [("Pedro", ["P."])] 70
    (by decide),
   find_best_normalized_match_resolution.2.1 "H. Socas"
    [("Héctor Socas", ["H. Socas"])] 70 ("Héctor Socas", ["H. Socas"])
    (by decide) (by decide)⟩

end CB
